import Mathlib

/-!
Verification of the browser-agent controller (src/controller.py, src/tools.py,
src/openrouter.py) against its natural-language specification.

The Python code is shallowly embedded: dictionaries and JSON values become the
inductive type PyVal, the mutable controller fields become explicit state
records, and code paths that raise uncaught Python exceptions are modelled with
Except Unit.  The JSON codec (json.loads / json.dumps) and the browser backend
are external library calls; they appear as explicit function parameters
(dec, dumps, dumpsSorted, execF) of the embedded operations.
-/

namespace BrowserAgent

/-- Python values as manipulated by the controller: the subset of JSON-style
values that flow through tool arguments, tool results and message contents. -/
inductive PyVal where
  | vnone
  | vbool (b : Bool)
  | vint (n : Int)
  | vstr (s : String)
  | vdict (entries : List (String × PyVal))
deriving Repr, Inhabited

/-- Python truthiness, as used by statements such as
if not tool_call.args and if function.get(...). -/
def pyTruthy : PyVal → Bool
  | .vnone => false
  | .vbool b => b
  | .vint n => decide (n ≠ 0)
  | .vstr s => decide (s ≠ "")
  | .vdict es => !es.isEmpty

mutual

/-- Python str()/repr() conversion: asRepr true is repr(), false is str().
Used for f-string interpolation in the summary helpers. -/
def pyToString (asRepr : Bool) : PyVal → String
  | .vnone => "None"
  | .vbool b => if b then "True" else "False"
  | .vint n => toString n
  | .vstr s => if asRepr then "\x27" ++ s ++ "\x27" else s
  | .vdict es => "\x7b" ++ String.intercalate ", " (pyDictEntryStrings es) ++ "\x7d"

/-- repr of the entries of a Python dict. -/
def pyDictEntryStrings : List (String × PyVal) → List String
  | [] => []
  | (k, v) :: rest => ("\x27" ++ k ++ "\x27: " ++ pyToString true v) :: pyDictEntryStrings rest

end

/-- Python str(), as used by f-strings. -/
def pyStr (v : PyVal) : String := pyToString false v

/-- Python dict.get(key, default) on the entry list of a vdict. -/
def pyGet (es : List (String × PyVal)) (key : String) (dflt : PyVal) : PyVal :=
  (es.lookup key).getD dflt

/-- Python len() on a value.  Only strings and dicts are sized here; len() on
any other modelled value raises TypeError in Python, modelled as an error. -/
def pyLen : PyVal → Except Unit Nat
  | .vstr s => .ok s.length
  | .vdict es => .ok es.length
  | _ => .error ()

/-- Python s[:100] slicing, as used in _summarize_tool_result.  Slicing a
non-sequence value raises TypeError, modelled as an error. -/
def pySlice100 : PyVal → Except Unit String
  | .vstr s => .ok (s.take 100)
  | _ => .error ()

/-! ## Data model: messages, tool calls, results (tools.py, openrouter.py) -/

/-- One entry of the tool_calls list of an assistant message
(controller.py lines 367-374). -/
structure AsstToolCall where
  callId : Option String
  name : String
  arguments : String
deriving Repr, DecidableEq, Inhabited

/-- A conversation message.  toolCalls is nonempty only for assistant
messages; toolCallId is set only for tool-result messages. -/
structure Msg where
  role : String
  content : String
  toolCalls : List AsstToolCall := []
  toolCallId : Option String := none
deriving Repr, DecidableEq, Inhabited

/-- format_message from openrouter.py. -/
def formatMessage (role content : String) : Msg :=
  { role := role, content := content }

/-- format_tool_message from openrouter.py. -/
def formatToolMessage (toolCallId content : String) : Msg :=
  { role := "tool", content := content, toolCallId := some toolCallId }

/-- The result dict returned by _run_tool: at least the keys ok and output.
Extra metadata keys are not tracked by the controller logic modelled here. -/
structure ToolResult where
  ok : Bool
  output : PyVal
deriving Repr, Inhabited

/-- The dict shape json.dumps receives for a tool result. -/
def toolResultToVal (r : ToolResult) : PyVal :=
  .vdict [("ok", .vbool r.ok), ("output", r.output)]

/-- An in-flight tool call being assembled from stream fragments.  The source
keeps three parallel lists (accumulated_tool_calls, tool_call_args_buffers,
assistant_tool_calls) that are always appended to and indexed together; they
are combined into one record per call.  buffer is the args-fragment
concatenation, args the last successful JSON decode of the buffer (initially
the empty dict), argText the arguments string stored on the assistant
tool_calls entry of the assistant message. -/
@[ext]
structure PendingCall where
  name : String
  callId : Option String
  buffer : String
  args : PyVal
  argText : String
deriving Repr, Inhabited

/-- A freshly opened tool call (controller.py lines 358-374). -/
def newPendingCall (name : String) (callId : Option String) : PendingCall :=
  { name := name, callId := callId, buffer := "", args := .vdict [], argText := "" }

/-! ## Stream fragments (model of the chunks yielded by the gateway) -/

/-- One element of delta.tool_calls: index, id, function.name,
function.arguments, each possibly absent. -/
structure ToolDelta where
  index : Option Nat := none
  callId : Option String := none
  fnName : Option String := none
  fnArgs : Option String := none
deriving Repr, DecidableEq, Inhabited

/-- Usage counters carried by a chunk, after the .get(key, 0) defaulting. -/
structure Usage where
  promptTokens : Nat := 0
  completionTokens : Nat := 0
deriving Repr, DecidableEq, Inhabited

/-- One streamed chunk: delta content (empty when absent), delta tool_calls,
optional usage counters. -/
structure Chunk where
  content : String := ""
  toolCalls : List ToolDelta := []
  usage : Option Usage := none
deriving Repr, DecidableEq, Inhabited

/-- Token counters owned by the controller (controller.py lines 51-54). -/
structure Counters where
  totalPrompt : Nat := 0
  totalCompletion : Nat := 0
  queryPrompt : Nat := 0
  queryCompletion : Nat := 0
deriving Repr, DecidableEq, Inhabited

/-! ## Streaming phase (controller.py, process_task lines 322-401) -/

/-- Usage accumulation from one chunk (controller.py lines 330-334).  The
source adds the counts only to the process-lifetime totals; the per-query
counters query_prompt_tokens / query_completion_tokens are never incremented
anywhere in the source. -/
def bumpCounters (cnt : Counters) : Option Usage → Counters
  | some u =>
    { cnt with
      totalPrompt := cnt.totalPrompt + u.promptTokens,
      totalCompletion := cnt.totalCompletion + u.completionTokens }
  | none => cnt

/-- Processing of one delta.tool_calls entry (controller.py lines 348-392).
A fragment with a truthy function.name opens a new call; a fragment with a
truthy function.arguments string appends it to the buffer at the index the
fragment carries (defaulting to the last opened call).  After each append the full
buffer is decoded; decode failure is silently deferred.  An index past the
end of the parallel lists skips both guarded updates but still reaches the
unguarded buffer read on the decode line, raising IndexError - modelled as
an error (it is caught by the outer try of process_task, aborting the
remaining turns). -/
def processToolDelta (dec : String → Option PyVal) (calls : List PendingCall)
    (d : ToolDelta) : Except Unit (List PendingCall) :=
  let calls :=
    match d.fnName with
    | some nm => if nm = "" then calls else calls ++ [newPendingCall nm d.callId]
    | none => calls
  match d.fnArgs with
  | some s =>
    if s = "" ∨ calls.length = 0 then .ok calls
    else
      let ci := d.index.getD (calls.length - 1)
      if h : ci < calls.length then
        let c := calls.get ⟨ci, h⟩
        let buf := c.buffer ++ s
        let c := { c with buffer := buf, argText := buf }
        let c :=
          match dec buf with
          | some v => { c with args := v }
          | none => c
        .ok (calls.set ci c)
      else .error ()
  | none => .ok calls

/-- Sequential processing of the tool-call deltas of one chunk. -/
def processDeltas (dec : String → Option PyVal) :
    List PendingCall → List ToolDelta → Except Unit (List PendingCall)
  | calls, [] => .ok calls
  | calls, d :: rest =>
    match processToolDelta dec calls d with
    | .ok calls => processDeltas dec calls rest
    | .error e => .error e

/-- State accumulated over one streamed response (content, in-flight tool
calls, token counters). -/
structure IterState where
  content : String
  calls : List PendingCall
  counters : Counters
deriving Repr, Inhabited

/-- Consuming the streamed chunks of one iteration (controller.py 324-392).
The Boolean result marks an exception escaping the chunk loop; in that case
the accumulated content and calls are discarded by the caller while the
already-applied counter updates survive (they live on self). -/
def consumeStream (dec : String → Option PyVal) :
    IterState → List Chunk → IterState × Bool
  | st, [] => (st, false)
  | st, ch :: rest =>
    let counters := bumpCounters st.counters ch.usage
    let content := st.content ++ ch.content
    match processDeltas dec st.calls ch.toolCalls with
    | .ok calls =>
      consumeStream dec { content := content, calls := calls, counters := counters } rest
    | .error _ => ({ st with counters := counters }, true)

/-! ## Result summarization (controller.py lines 66-136) -/

/-- _summarize_snapshot_result (controller.py lines 66-94): a snapshot result
fed back to the model keeps only the interactive-element count and the page
content length; a non-dict output keeps only its str() length.  len() on an
unsized refs or snapshot value raises TypeError, modelled as an error. -/
def summarizeSnapshotResult (r : ToolResult) : Except Unit ToolResult :=
  match r.output with
  | .vdict es =>
    match pyLen (pyGet es "refs" (.vdict [])), pyLen (pyGet es "snapshot" (.vstr "")) with
    | .ok nrefs, .ok nsnap =>
      .ok { ok := r.ok,
            output := .vstr ("[Snapshot summarized: " ++ toString nrefs ++
              " interactive elements, " ++ toString nsnap ++ " chars of page content]") }
    | .error e, _ => .error e
    | _, .error e => .error e
  | out =>
    .ok { ok := r.ok,
          output := .vstr ("[Snapshot summarized - " ++ toString (pyStr out).length ++ " characters]") }

/-- _summarize_tool_result (controller.py lines 96-136).  tool_name arrives
as the raw value of tool_content.get("tool", "unknown"); comparison of a
non-string value with the string literals is False in Python, falling through
to the generic branch, which the catch-all match arm mirrors. -/
def summarizeToolResult (toolName : PyVal) (es : List (String × PyVal)) : Except Unit String :=
  if !(pyTruthy (pyGet es "ok" .vnone)) then .ok (pyStr toolName ++ " failed")
  else
    let output := pyGet es "output" (.vstr "")
    match toolName with
    | .vstr "browser_open" =>
      if pyTruthy output then
        match pySlice100 output with
        | .ok s => .ok ("Opened URL: " ++ s)
        | .error e => .error e
      else .ok "Opened URL: unknown"
    | .vstr "browser_snapshot" =>
      match output with
      | .vdict es2 =>
        match pyLen (pyGet es2 "refs" (.vdict [])) with
        | .ok n => .ok ("Snapshot: " ++ toString n ++ " interactive elements")
        | .error e => .error e
      | _ => .ok "Snapshot taken"
    | .vstr "browser_screenshot" => .ok "Captured screenshot"
    | .vstr "browser_click" => .ok "Clicked element"
    | .vstr "browser_fill" => .ok "Filled input field"
    | .vstr "browser_get_text" =>
      match pySlice100 output with
      | .ok s => .ok ("Retrieved text: " ++ s ++ "...")
      | .error e => .error e
    | .vstr "browser_scroll" => .ok "Scrolled page"
    | .vstr "browser_back" => .ok "Navigated back"
    | .vstr "browser_forward" => .ok "Navigated forward"
    | _ => .ok (pyStr toolName ++ " executed")

/-! ## Sliding-window compaction (controller.py lines 573-601) -/

/-- High-water mark of the sliding window (controller.py line 60). -/
def MAX_HISTORY_MESSAGES : Nat := 12

/-- Low-water mark of the sliding window (controller.py line 61). -/
def MAX_SUMMARIZED_HISTORY : Nat := 6

/-- In-place rewrite of one old tool message (controller.py lines 584-596).
A JSONDecodeError from loading the stored content is caught and replaced by
the generic placeholder; content decoding to a non-dict value reaches .get on
it and raises AttributeError (uncaught), modelled as an error. -/
def rewriteToolMsg (dec : String → Option PyVal) (dumps : PyVal → String)
    (m : Msg) : Except Unit Msg :=
  match dec m.content with
  | none => .ok { m with content := "[Previous tool result summarized]" }
  | some (.vdict es) =>
    match summarizeToolResult (pyGet es "tool" (.vstr "unknown")) es with
    | .ok summary =>
      .ok { m with content := dumps (.vdict
        [("tool", pyGet es "tool" (.vstr "unknown")),
         ("ok", pyGet es "ok" (.vbool true)),
         ("output", .vstr summary)]) }
    | .error e => .error e
  | some _ => .error ()

/-- First compaction phase (controller.py lines 580-596): every message at an
index below n whose role is tool is rewritten in place; all other messages
are kept as they are.  i is the index of the head of the remaining list. -/
def summarizeOld (dec : String → Option PyVal) (dumps : PyVal → String)
    (n : Nat) : Nat → List Msg → Except Unit (List Msg)
  | _, [] => .ok []
  | i, m :: rest =>
    match (if i < n ∧ m.role = "tool" then rewriteToolMsg dec dumps m else .ok m) with
    | .ok m =>
      match summarizeOld dec dumps n (i + 1) rest with
      | .ok rest => .ok (m :: rest)
      | .error e => .error e
    | .error e => .error e

/-- Second compaction phase (controller.py lines 600-601): while the list is
longer than the low-water mark, pop the oldest message. -/
def evictToLimit : List Msg → List Msg
  | [] => []
  | m :: rest =>
    if (m :: rest).length > MAX_SUMMARIZED_HISTORY then evictToLimit rest
    else m :: rest

/-- The sliding-window compaction (controller.py lines 573-601), run after
each tool-result append: if the history exceeds the high-water mark,
summarize the oldest (length - low-water-mark) tool messages in place, then
evict from the front while still above the low-water mark. -/
def slidingWindowCompact (dec : String → Option PyVal) (dumps : PyVal → String)
    (messages : List Msg) : Except Unit (List Msg) :=
  if messages.length > MAX_HISTORY_MESSAGES then
    match summarizeOld dec dumps (messages.length - MAX_SUMMARIZED_HISTORY) 0 messages with
    | .ok messages => .ok (evictToLimit messages)
    | .error e => .error e
  else .ok messages

/-! ## Tool execution phase (controller.py lines 424-457 and 500-601) -/

/-- Observable events yielded by the agent loop that the claims refer to.
logToolResult stands for the session recorder receiving the full,
unsummarized result (controller.py lines 534-539). -/
inductive Event where
  | llmError
  | incompleteArgsError (toolName : String)
  | loopDetected (toolName : String) (args : PyVal)
  | toolCallEv (toolName : String) (args : PyVal)
  | logToolResult (toolName : String) (result : ToolResult)
  | warningMaxIterations
deriving Repr, Inhabited

/-- Whether an event is a loop-detected advisory. -/
def Event.isLoopDetected : Event → Bool
  | .loopDetected _ _ => true
  | _ => false

/-- Whether an event is the per-call incomplete-arguments error. -/
def Event.isIncompleteArgsError : Event → Bool
  | .incompleteArgsError _ => true
  | _ => false

/-- Action signature for loop detection (controller.py line 436): name,
colon, canonical key-sorted JSON of the arguments.  dumpsSorted models
json.dumps(args, sort_keys=True). -/
def actionSig (dumpsSorted : PyVal → String) (c : PendingCall) : String :=
  c.name ++ ":" ++ dumpsSorted c.args

/-- Recent-action ring update (controller.py lines 437-439): append the
signature, then pop the oldest entry once if the length now exceeds 10. -/
def ringPush (ring : List String) (sig : String) : List String :=
  let r := ring ++ [sig]
  if r.length > 10 then r.tail else r

/-- Persistent controller state (controller.py lines 44-54). -/
structure ControllerState where
  messages : List Msg := []
  recentActions : List String := []
  counters : Counters := {}
deriving Repr, Inhabited

/-- The triple threaded through the execution loop: persistent state, the
per-task API message list, and the emitted events. -/
structure StepState where
  state : ControllerState
  api : List Msg
  events : List Event
deriving Repr, Inhabited

/-- Choice of the tool-result message content (controller.py lines 547-570):
a successful screenshot is replaced by a fixed placeholder, a successful
snapshot is minimized by _summarize_snapshot_result, everything else is the
dumped raw result. -/
def mkToolMessage (dumps : PyVal → String) (c : PendingCall) (result : ToolResult) :
    Except Unit Msg :=
  if c.name = "browser_screenshot" ∧ result.ok then
    .ok (formatToolMessage (c.callId.getD "unknown")
      (dumps (toolResultToVal
        { ok := result.ok,
          output := .vstr "[Screenshot captured - image not included in conversation history]" })))
  else if c.name = "browser_snapshot" ∧ result.ok then
    match summarizeSnapshotResult result with
    | .ok minimized =>
      .ok (formatToolMessage (c.callId.getD "unknown") (dumps (toolResultToVal minimized)))
    | .error e => .error e
  else
    .ok (formatToolMessage (c.callId.getD "unknown") (dumps (toolResultToVal result)))

/-- Processing of one accumulated tool call (the loop body at controller.py
lines 425-457 together with _execute_tool_call at lines 500-601).  A call
whose args never parsed to a truthy value is skipped with a per-call error
event; otherwise its signature is pushed onto the ring, a loop advisory is
emitted when the signature occurs at least 5 times in the ring, the tool is
executed (execF models _run_tool, which never raises), the full result is
handed to the session recorder, the possibly-summarized tool message is
appended to the API message list, and the sliding-window compaction runs on
the persistent history. -/
def processOneCall (dec : String → Option PyVal) (dumps dumpsSorted : PyVal → String)
    (execF : String → PyVal → ToolResult) (s : StepState) (c : PendingCall) :
    Except Unit StepState :=
  if !(pyTruthy c.args) then
    .ok { s with events := s.events ++ [.incompleteArgsError c.name] }
  else
    let sig := actionSig dumpsSorted c
    let ring := ringPush s.state.recentActions sig
    let loopEvs := if ring.count sig ≥ 5 then [Event.loopDetected c.name c.args] else []
    let result := execF c.name c.args
    let evs := s.events ++ loopEvs ++ [.toolCallEv c.name c.args, .logToolResult c.name result]
    match mkToolMessage dumps c result with
    | .error e => .error e
    | .ok toolMsg =>
      match slidingWindowCompact dec dumps s.state.messages with
      | .error e => .error e
      | .ok msgs =>
        .ok { state := { messages := msgs, recentActions := ring, counters := s.state.counters },
              api := s.api ++ [toolMsg],
              events := evs }

/-- Sequential execution of all accumulated tool calls of one turn
(controller.py lines 424-457). -/
def execCalls (dec : String → Option PyVal) (dumps dumpsSorted : PyVal → String)
    (execF : String → PyVal → ToolResult) :
    StepState → List PendingCall → Except Unit StepState
  | s, [] => .ok s
  | s, c :: rest =>
    match processOneCall dec dumps dumpsSorted execF s c with
    | .ok s => execCalls dec dumps dumpsSorted execF s rest
    | .error e => .error e

/-! ## The agent loop (controller.py, process_task) -/

/-- The assistant message appended after streaming completes (controller.py
lines 403-412): accumulated content plus one tool_calls entry per opened
call, carrying its final argument text. -/
def mkAssistantMsg (content : String) (calls : List PendingCall) : Msg :=
  { role := "assistant", content := content,
    toolCalls := calls.map fun c =>
      { callId := c.callId, name := c.name, arguments := c.argText } }

/-- Default iteration cap (controller.py line 25). -/
def maxIterations : Nat := 1000

/-- The fixed system prompt (controller.py lines 138-261).  Its static
guidance text does not influence control flow; the constant keeps the
opening line. -/
def systemPrompt : String :=
  "You are a helpful AI assistant that can browse the web and perform actions."

/-- One run of the while loop of process_task (controller.py lines 304-474).
Each iteration consumes the next streamed response (turns supplies the
chunks; an exhausted turn source behaves as an empty stream).  A stream
exception yields a single error event and breaks out of the loop without
appending the assistant message; a completed stream appends the assistant
message to both the history and the API list, then executes the accumulated
calls and continues while the assistant issued tool calls.  Exhausted fuel
models reaching the iteration cap, which emits a warning event. -/
def runLoop (dec : String → Option PyVal) (dumps dumpsSorted : PyVal → String)
    (execF : String → PyVal → ToolResult) :
    Nat → List (List Chunk) → StepState → Except Unit StepState
  | 0, _, s => .ok { s with events := s.events ++ [.warningMaxIterations] }
  | fuel + 1, turns, s =>
    let next :=
      match turns with
      | [] => (([] : List Chunk), ([] : List (List Chunk)))
      | t :: ts => (t, ts)
    match consumeStream dec { content := "", calls := [], counters := s.state.counters } next.1 with
    | (iter, true) =>
      .ok { s with
        state := { s.state with counters := iter.counters },
        events := s.events ++ [.llmError] }
    | (iter, false) =>
      let asst := mkAssistantMsg iter.content iter.calls
      let s : StepState :=
        { state := { s.state with
            counters := iter.counters,
            messages := s.state.messages ++ [asst] },
          api := s.api ++ [asst],
          events := s.events }
      if iter.calls.isEmpty then .ok s
      else
        match execCalls dec dumps dumpsSorted execF s iter.calls with
        | .ok s => runLoop dec dumps dumpsSorted execF fuel next.2 s
        | .error e => .error e

/-- One tool-result message per executed (truthy-args) call, in call order;
skipped calls contribute none.  This is the specification-side description of
the messages the execution loop appends to the API list in one turn. -/
def executedToolMsgs (dumps : PyVal → String) (execF : String → PyVal → ToolResult) :
    List PendingCall → Except Unit (List Msg)
  | [] => .ok []
  | c :: rest =>
    if pyTruthy c.args then
      match mkToolMessage dumps c (execF c.name c.args),
          executedToolMsgs dumps execF rest with
      | .ok m, .ok ms => .ok (m :: ms)
      | .error e, _ => .error e
      | _, .error e => .error e
    else executedToolMsgs dumps execF rest

/-! ## Pricing and usage (openrouter.py, controller.py lines 476-498) -/

/-- Per-million-token prices for one model. -/
structure Pricing where
  input : ℚ
  output : ℚ
deriving Repr, DecidableEq, Inhabited

/-- STATIC_PRICING from openrouter.py (lines 16-24), prices per 1M tokens.
Integral prices (15.00, 75.00, 3.00, 10.00) are written as the equal integer
rationals; fractional ones keep their decimal literals. -/
def STATIC_PRICING : List (String × Pricing) :=
  [("anthropic/claude-sonnet-4", ⟨15, 75⟩),
   ("anthropic/claude-3.5-sonnet", ⟨3, 15⟩),
   ("anthropic/claude-3-haiku", ⟨0.25, 1.25⟩),
   ("openai/gpt-4o", ⟨2.50, 10⟩),
   ("openai/gpt-4o-mini", ⟨0.15, 0.60⟩),
   ("google/gemini-2.0-flash-exp", ⟨0.075, 0.30⟩),
   ("meta-llama/llama-3.1-405b-instruct", ⟨0.70, 0.70⟩)]

/-- Cost formula (controller.py lines 485-486): tokens times price divided by
1,000,000. -/
def computeCost (promptTokens completionTokens : Nat) (pr : Pricing) : ℚ :=
  ((promptTokens : ℚ) * pr.input + (completionTokens : ℚ) * pr.output) / 1000000

/-- The usage summary yielded on loop exit (controller.py lines 488-498). -/
structure UsageSummary where
  promptTokens : Nat
  completionTokens : Nat
  totalTokens : Nat
  costUsd : ℚ
  queryPromptTokens : Nat
  queryCompletionTokens : Nat
  queryTotalTokens : Nat
  queryCostUsd : ℚ
deriving Repr, DecidableEq, Inhabited

/-- Assembly of the usage summary from the counters and the resolved pricing
(controller.py lines 476-498). -/
def mkUsageSummary (cnt : Counters) (pr : Pricing) : UsageSummary :=
  { promptTokens := cnt.totalPrompt,
    completionTokens := cnt.totalCompletion,
    totalTokens := cnt.totalPrompt + cnt.totalCompletion,
    costUsd := computeCost cnt.totalPrompt cnt.totalCompletion pr,
    queryPromptTokens := cnt.queryPrompt,
    queryCompletionTokens := cnt.queryCompletion,
    queryTotalTokens := cnt.queryPrompt + cnt.queryCompletion,
    queryCostUsd := computeCost cnt.queryPrompt cnt.queryCompletion pr }

/-- The observable outcome of one completed process_task run. -/
structure RunResult where
  state : ControllerState
  api : List Msg
  events : List Event
  usage : UsageSummary
deriving Repr, Inhabited

/-- process_task (controller.py lines 272-498): log and append the user
message, reset the per-query counters, build the API message list (system
prompt followed by the full history), run the agent loop, and emit the usage
summary from the counters and the resolved pricing. -/
def processTask (dec : String → Option PyVal) (dumps dumpsSorted : PyVal → String)
    (execF : String → PyVal → ToolResult) (pricing : Pricing)
    (st0 : ControllerState) (userTask : String) (turns : List (List Chunk)) :
    Except Unit RunResult :=
  let st : ControllerState :=
    { st0 with
      messages := st0.messages ++ [formatMessage "user" userTask],
      counters := { st0.counters with queryPrompt := 0, queryCompletion := 0 } }
  let api := formatMessage "system" systemPrompt :: st.messages
  match runLoop dec dumps dumpsSorted execF maxIterations turns
      { state := st, api := api, events := [] } with
  | .error e => .error e
  | .ok s =>
    .ok { state := s.state, api := s.api, events := s.events,
          usage := mkUsageSummary s.state.counters pricing }

/-! ## Output truncation (tools.py lines 513-529) -/

/-- truncate_output from tools.py: output at or below max_size (default
50000) is returned unchanged; longer output is cut to its first max_size
characters followed by a marker naming the original total length. -/
def truncateOutput (output : String) (maxSize : Nat) : String :=
  if output.length ≤ maxSize then output
  else output.take maxSize ++ "\n\n[Output truncated: " ++ toString output.length ++
    " total characters]"

/-! ## Single-call stream shapes (used to state the assembly claims) -/

/-- Concatenation of argument fragments in index order. -/
def sconcat : List String → String
  | [] => ""
  | s :: rest => s ++ sconcat rest

/-- A chunk carrying one tool-call delta that opens a new call. -/
def openChunk (nm : String) (callId : Option String) : Chunk :=
  { toolCalls := [{ index := some 0, callId := callId, fnName := some nm }] }

/-- A chunk carrying one argument-text fragment for the call at index 0. -/
def argChunk (s : String) : Chunk :=
  { toolCalls := [{ index := some 0, fnArgs := some s }] }

/-- Effect of one nonempty argument fragment on an in-flight call
(controller.py lines 377-392): append to the buffer, mirror the buffer into
the assistant-message argument text, and decode the whole buffer, keeping
the previous parsed arguments when the decode fails. -/
def applyFrag (dec : String → Option PyVal) (c : PendingCall) (s : String) : PendingCall :=
  match dec (c.buffer ++ s) with
  | some v => { c with buffer := c.buffer ++ s, argText := c.buffer ++ s, args := v }
  | none => { c with buffer := c.buffer ++ s, argText := c.buffer ++ s }

/-- The fold the streaming loop performs on a single in-flight call over a
sequence of argument fragments; empty fragments are skipped by the falsy
check on function.get("arguments"). -/
def argFold (dec : String → Option PyVal) (c : PendingCall) : List String → PendingCall
  | [] => c
  | s :: rest =>
    if s = "" then argFold dec c rest
    else argFold dec (applyFrag dec c s) rest

/-! ## Helper lemmas -/

theorem string_length_take (s : String) (n : Nat) : (s.take n).length = min n s.length := by
  rw [String.take_eq]
  exact List.length_take n s.data

theorem sconcat_all_empty {l : List String} (h : ∀ f ∈ l, f = "") : sconcat l = "" := by
  induction l with
  | nil => rfl
  | cons s rest ih =>
    have hs : s = "" := h s (by simp)
    have hr : sconcat rest = "" := ih fun f hf => h f (by simp [hf])
    simp [sconcat, hs, hr]

theorem applyFrag_buffer (dec : String → Option PyVal) (c : PendingCall) (s : String) :
    (applyFrag dec c s).buffer = c.buffer ++ s := by
  unfold applyFrag
  cases dec (c.buffer ++ s) <;> rfl

theorem applyFrag_argText (dec : String → Option PyVal) (c : PendingCall) (s : String) :
    (applyFrag dec c s).argText = c.buffer ++ s := by
  unfold applyFrag
  cases dec (c.buffer ++ s) <;> rfl

theorem applyFrag_name (dec : String → Option PyVal) (c : PendingCall) (s : String) :
    (applyFrag dec c s).name = c.name ∧ (applyFrag dec c s).callId = c.callId := by
  unfold applyFrag
  cases dec (c.buffer ++ s) <;> exact ⟨rfl, rfl⟩

theorem applyFrag_args_of_decode (dec : String → Option PyVal) (c : PendingCall)
    (s : String) (v : PyVal) (h : dec (c.buffer ++ s) = some v) :
    (applyFrag dec c s).args = v := by
  unfold applyFrag
  rw [h]

theorem applyFrag_args_of_fail (dec : String → Option PyVal) (c : PendingCall)
    (s : String) (h : dec (c.buffer ++ s) = none) :
    (applyFrag dec c s).args = c.args := by
  unfold applyFrag
  rw [h]

theorem argFold_all_empty (dec : String → Option PyVal) (c : PendingCall)
    {l : List String} (h : ∀ f ∈ l, f = "") : argFold dec c l = c := by
  induction l with
  | nil => rfl
  | cons s rest ih =>
    have hs : s = "" := h s (by simp)
    simp [argFold, hs, ih fun f hf => h f (by simp [hf])]

theorem argFold_buffer (dec : String → Option PyVal) (frags : List String) :
    ∀ c, (argFold dec c frags).buffer = c.buffer ++ sconcat frags := by
  induction frags with
  | nil => intro c; simp [argFold, sconcat]
  | cons s rest ih =>
    intro c
    by_cases hs : s = ""
    · simp [argFold, hs, ih, sconcat]
    · simp [argFold, hs, ih, sconcat, applyFrag_buffer, String.append_assoc]

theorem argFold_name (dec : String → Option PyVal) (frags : List String) :
    ∀ c, (argFold dec c frags).name = c.name ∧ (argFold dec c frags).callId = c.callId := by
  induction frags with
  | nil => intro c; exact ⟨rfl, rfl⟩
  | cons s rest ih =>
    intro c
    by_cases hs : s = ""
    · simpa [argFold, hs] using ih c
    · have h1 := ih (applyFrag dec c s)
      have h2 := applyFrag_name dec c s
      simp only [argFold, hs, if_false] at h1 ⊢
      exact ⟨h1.1.trans h2.1, h1.2.trans h2.2⟩

theorem argFold_argText (dec : String → Option PyVal) (frags : List String) :
    ∀ c, c.argText = c.buffer → (argFold dec c frags).argText = (argFold dec c frags).buffer := by
  induction frags with
  | nil => intro c h; exact h
  | cons s rest ih =>
    intro c h
    by_cases hs : s = ""
    · simpa [argFold, hs] using ih c h
    · have : (applyFrag dec c s).argText = (applyFrag dec c s).buffer := by
        rw [applyFrag_argText, applyFrag_buffer]
      simpa [argFold, hs] using ih (applyFrag dec c s) this

theorem argFold_args (dec : String → Option PyVal) (frags : List String) (v : PyVal) :
    ∀ c, (∃ f ∈ frags, f ≠ "") → dec (c.buffer ++ sconcat frags) = some v →
      (argFold dec c frags).args = v := by
  induction frags with
  | nil => intro c hne _; simp at hne
  | cons s rest ih =>
    intro c hne hdec
    by_cases hs : s = ""
    · subst hs
      have hr : ∃ f ∈ rest, f ≠ "" := by
        obtain ⟨f, hf, hfne⟩ := hne
        rcases List.mem_cons.mp hf with h | h
        · exact absurd h hfne
        · exact ⟨f, h, hfne⟩
      have hdec2 : dec (c.buffer ++ sconcat rest) = some v := by
        simpa [sconcat] using hdec
      simpa [argFold] using ih c hr hdec2
    · by_cases hr : ∃ f ∈ rest, f ≠ ""
      · have hdec2 : dec ((applyFrag dec c s).buffer ++ sconcat rest) = some v := by
          rw [applyFrag_buffer, String.append_assoc]
          simpa [sconcat] using hdec
        simpa [argFold, hs] using ih (applyFrag dec c s) hr hdec2
      · have hall : ∀ f ∈ rest, f = "" := by
          intro f hf
          by_contra hc
          exact hr ⟨f, hf, hc⟩
        have hsr : sconcat rest = "" := sconcat_all_empty hall
        have hdec2 : dec (c.buffer ++ s) = some v := by
          simpa [sconcat, hsr] using hdec
        have harg := applyFrag_args_of_decode dec c s v hdec2
        simp only [argFold]
        rw [if_neg hs, argFold_all_empty dec _ hall, harg]

theorem consumeStream_argChunk_cons (dec : String → Option PyVal) (content : String)
    (c : PendingCall) (cnt : Counters) (s : String) (rest : List Chunk) :
    consumeStream dec ⟨content, [c], cnt⟩ (argChunk s :: rest)
      = consumeStream dec ⟨content, [if s = "" then c else applyFrag dec c s], cnt⟩ rest := by
  by_cases hs : s = ""
  · subst hs
    simp [consumeStream, argChunk, processDeltas, processToolDelta, bumpCounters]
  · simp [consumeStream, argChunk, processDeltas, processToolDelta, bumpCounters, hs,
      applyFrag]

theorem consumeStream_argChunks (dec : String → Option PyVal) (frags : List String) :
    ∀ (content : String) (cnt : Counters) (c : PendingCall),
      consumeStream dec ⟨content, [c], cnt⟩ (frags.map argChunk)
        = (⟨content, [argFold dec c frags], cnt⟩, false) := by
  induction frags with
  | nil => intro content cnt c; rfl
  | cons s rest ih =>
    intro content cnt c
    rw [List.map_cons, consumeStream_argChunk_cons]
    by_cases hs : s = ""
    · simpa [hs, argFold] using ih content cnt c
    · simpa [hs, argFold] using ih content cnt (applyFrag dec c s)

theorem mkToolMessage_screenshot (dumps : PyVal → String) (c : PendingCall)
    (r : ToolResult) (hn : c.name = "browser_screenshot") (hok : r.ok = true) :
    mkToolMessage dumps c r = .ok (formatToolMessage (c.callId.getD "unknown")
      (dumps (toolResultToVal ⟨true,
        .vstr "[Screenshot captured - image not included in conversation history]"⟩))) := by
  unfold mkToolMessage
  rw [if_pos ⟨hn, hok⟩, hok]

theorem mkToolMessage_snapshot (dumps : PyVal → String) (c : PendingCall)
    (es : List (String × PyVal)) (nrefs nsnap : Nat) (hn : c.name = "browser_snapshot")
    (hrefs : pyLen (pyGet es "refs" (.vdict [])) = .ok nrefs)
    (hsnap : pyLen (pyGet es "snapshot" (.vstr "")) = .ok nsnap) :
    mkToolMessage dumps c ⟨true, .vdict es⟩ = .ok (formatToolMessage (c.callId.getD "unknown")
      (dumps (toolResultToVal ⟨true,
        .vstr ("[Snapshot summarized: " ++ toString nrefs ++
          " interactive elements, " ++ toString nsnap ++ " chars of page content]")⟩))) := by
  unfold mkToolMessage
  rw [if_neg (fun h => by rw [hn] at h; exact absurd h.1 (by decide)), if_pos ⟨hn, rfl⟩]
  simp [summarizeSnapshotResult, hrefs, hsnap]

theorem processOneCall_executed (dec : String → Option PyVal)
    (dumps dumpsSorted : PyVal → String) (execF : String → PyVal → ToolResult)
    (s : StepState) (c : PendingCall) (hc : pyTruthy c.args) (res : StepState)
    (hres : processOneCall dec dumps dumpsSorted execF s c = .ok res) :
    ∃ toolMsg msgs,
      mkToolMessage dumps c (execF c.name c.args) = .ok toolMsg ∧
      slidingWindowCompact dec dumps s.state.messages = .ok msgs ∧
      res = ⟨⟨msgs, ringPush s.state.recentActions (actionSig dumpsSorted c),
          s.state.counters⟩,
        s.api ++ [toolMsg],
        s.events ++
          (if (ringPush s.state.recentActions (actionSig dumpsSorted c)).count
              (actionSig dumpsSorted c) ≥ 5
            then [Event.loopDetected c.name c.args] else []) ++
          [.toolCallEv c.name c.args, .logToolResult c.name (execF c.name c.args)]⟩ := by
  simp only [processOneCall, hc, Bool.not_true, Bool.false_eq_true, if_false] at hres
  rcases hm : mkToolMessage dumps c (execF c.name c.args) with e | toolMsg <;>
    rw [hm] at hres
  · exact absurd hres (by simp)
  rcases hw : slidingWindowCompact dec dumps s.state.messages with e | msgs <;>
    rw [hw] at hres
  · exact absurd hres (by simp)
  injection hres with hres
  exact ⟨toolMsg, msgs, rfl, rfl, by rw [← hres]⟩

theorem evictToLimit_eq_drop :
    ∀ l : List Msg, evictToLimit l = l.drop (l.length - MAX_SUMMARIZED_HISTORY) := by
  intro l
  induction l with
  | nil => rfl
  | cons m rest ih =>
    by_cases h : (m :: rest).length > MAX_SUMMARIZED_HISTORY
    · have hlen : (m :: rest).length - MAX_SUMMARIZED_HISTORY
          = (rest.length - MAX_SUMMARIZED_HISTORY) + 1 := by
        simp only [List.length_cons] at h ⊢
        omega
      simp only [evictToLimit, if_pos h, hlen, List.drop_succ_cons]
      exact ih
    · have hlen : (m :: rest).length - MAX_SUMMARIZED_HISTORY = 0 := by omega
      simp only [evictToLimit, if_neg h, hlen, List.drop_zero]

theorem summarizeOld_length (dec : String → Option PyVal) (dumps : PyVal → String)
    (n : Nat) :
    ∀ (msgs : List Msg) (i : Nat) (out : List Msg),
      summarizeOld dec dumps n i msgs = .ok out → out.length = msgs.length := by
  intro msgs
  induction msgs with
  | nil =>
    intro i out h
    injection h with h
    subst h
    rfl
  | cons m rest ih =>
    intro i out h
    simp only [summarizeOld] at h
    rcases h1 : (if i < n ∧ m.role = "tool" then rewriteToolMsg dec dumps m else .ok m)
        with e | m2 <;> rw [h1] at h
    · exact absurd h (by simp)
    rcases h2 : summarizeOld dec dumps n (i + 1) rest with e | rest2 <;> rw [h2] at h
    · exact absurd h (by simp)
    injection h with h
    subst h
    simp [ih (i + 1) rest2 h2]

theorem summarizeOld_getD (dec : String → Option PyVal) (dumps : PyVal → String)
    (n : Nat) :
    ∀ (msgs : List Msg) (i : Nat) (out : List Msg),
      summarizeOld dec dumps n i msgs = .ok out → ∀ j,
        ((i + j < n ∧ (msgs.getD j default).role = "tool") →
          rewriteToolMsg dec dumps (msgs.getD j default) = .ok (out.getD j default)) ∧
        ((¬ (i + j < n ∧ (msgs.getD j default).role = "tool")) →
          out.getD j default = msgs.getD j default) := by
  intro msgs
  induction msgs with
  | nil =>
    intro i out h j
    injection h with h
    subst h
    refine ⟨fun hx => ?_, fun _ => rfl⟩
    have hrole : ("" : String) = "tool" := hx.2
    exact absurd hrole (by decide)
  | cons m rest ih =>
    intro i out h j
    simp only [summarizeOld] at h
    rcases h1 : (if i < n ∧ m.role = "tool" then rewriteToolMsg dec dumps m else .ok m)
        with e | m2 <;> rw [h1] at h
    · exact absurd h (by simp)
    rcases h2 : summarizeOld dec dumps n (i + 1) rest with e | rest2 <;> rw [h2] at h
    · exact absurd h (by simp)
    injection h with h
    subst h
    cases j with
    | zero =>
      constructor
      · intro hx
        have hcond : i < n ∧ m.role = "tool" := ⟨by omega, hx.2⟩
        rw [if_pos hcond] at h1
        exact h1
      · intro hx
        have hcond : ¬ (i < n ∧ m.role = "tool") := by
          intro hy
          exact hx ⟨by omega, hy.2⟩
        rw [if_neg hcond] at h1
        injection h1 with h1
        exact h1.symm
    | succ j2 =>
      have hrec := ih (i + 1) rest2 h2 j2
      constructor
      · intro hx
        exact hrec.1 ⟨by omega, hx.2⟩
      · intro hx
        refine hrec.2 fun hy => hx ⟨by omega, hy.2⟩

theorem processOneCall_skipped (dec : String → Option PyVal)
    (dumps dumpsSorted : PyVal → String) (execF : String → PyVal → ToolResult)
    (s : StepState) (c : PendingCall) (hc : ¬ pyTruthy c.args) :
    processOneCall dec dumps dumpsSorted execF s c
      = .ok { s with events := s.events ++ [.incompleteArgsError c.name] } := by
  have hc2 : pyTruthy c.args = false := by
    cases h : pyTruthy c.args
    · rfl
    · exact absurd h hc
  simp [processOneCall, hc2]

theorem execCalls_api (dec : String → Option PyVal) (dumps dumpsSorted : PyVal → String)
    (execF : String → PyVal → ToolResult) :
    ∀ (calls : List PendingCall) (s out : StepState),
      execCalls dec dumps dumpsSorted execF s calls = .ok out →
      ∃ msgsAdded, executedToolMsgs dumps execF calls = .ok msgsAdded ∧
        out.api = s.api ++ msgsAdded := by
  intro calls
  induction calls with
  | nil =>
    intro s out h
    injection h with h
    subst h
    exact ⟨[], rfl, by simp⟩
  | cons c rest ih =>
    intro s out h
    simp only [execCalls] at h
    rcases h1 : processOneCall dec dumps dumpsSorted execF s c with e | s1 <;> rw [h1] at h
    · exact absurd h (by simp)
    by_cases hc : pyTruthy c.args
    · obtain ⟨toolMsg, msgs, hmk, hw, hre⟩ :=
        processOneCall_executed dec dumps dumpsSorted execF s c hc s1 h1
      obtain ⟨ms2, hms2, hapi2⟩ := ih s1 out h
      refine ⟨toolMsg :: ms2, ?_, ?_⟩
      · simp only [executedToolMsgs, if_pos hc, hmk, hms2]
      · rw [hapi2, hre]
        simp
    · rw [processOneCall_skipped dec dumps dumpsSorted execF s c hc] at h1
      injection h1 with h1
      obtain ⟨ms2, hms2, hapi2⟩ := ih s1 out h
      refine ⟨ms2, ?_, ?_⟩
      · simp only [executedToolMsgs, if_neg hc, hms2]
      · rw [hapi2, ← h1]

theorem rewriteToolMsg_role (dec : String → Option PyVal) (dumps : PyVal → String)
    (m m2 : Msg) (h : rewriteToolMsg dec dumps m = .ok m2) : m2.role = m.role := by
  unfold rewriteToolMsg at h
  split at h
  · injection h with h
    rw [← h]
  · split at h
    · injection h with h
      rw [← h]
    · exact absurd h (by simp)
  · exact absurd h (by simp)

theorem summarizeOld_roles (dec : String → Option PyVal) (dumps : PyVal → String)
    (n : Nat) (P : String → Prop) :
    ∀ (msgs : List Msg) (i : Nat) (out : List Msg),
      summarizeOld dec dumps n i msgs = .ok out →
      (∀ m ∈ msgs, P m.role) → ∀ m ∈ out, P m.role := by
  intro msgs
  induction msgs with
  | nil =>
    intro i out h hP
    injection h with h
    subst h
    intro m hm
    exact absurd hm (by simp)
  | cons m rest ih =>
    intro i out h hP
    simp only [summarizeOld] at h
    rcases h1 : (if i < n ∧ m.role = "tool" then rewriteToolMsg dec dumps m else .ok m)
        with e | m2 <;> rw [h1] at h
    · exact absurd h (by simp)
    rcases h2 : summarizeOld dec dumps n (i + 1) rest with e | rest2 <;> rw [h2] at h
    · exact absurd h (by simp)
    injection h with h
    subst h
    have hm2 : m2.role = m.role := by
      split at h1
      · exact rewriteToolMsg_role dec dumps m m2 h1
      · injection h1 with h1
        rw [← h1]
    intro x hx
    rcases List.mem_cons.mp hx with hx | hx
    · subst hx
      rw [hm2]
      exact hP m (by simp)
    · exact ih (i + 1) rest2 h2 (fun y hy => hP y (by simp [hy])) x hx

theorem slidingWindowCompact_roles (dec : String → Option PyVal) (dumps : PyVal → String)
    (P : String → Prop) (msgs out : List Msg)
    (h : slidingWindowCompact dec dumps msgs = .ok out)
    (hP : ∀ m ∈ msgs, P m.role) : ∀ m ∈ out, P m.role := by
  unfold slidingWindowCompact at h
  split at h
  · rcases hs : summarizeOld dec dumps (msgs.length - MAX_SUMMARIZED_HISTORY) 0 msgs
        with e | mid <;> rw [hs] at h
    · exact absurd h (by simp)
    injection h with h
    subst h
    have hmid := summarizeOld_roles dec dumps (msgs.length - MAX_SUMMARIZED_HISTORY)
      P msgs 0 mid hs hP
    rw [evictToLimit_eq_drop]
    intro m hm
    exact hmid m (List.mem_of_mem_drop hm)
  · injection h with h
    subst h
    exact hP

theorem processOneCall_roles (dec : String → Option PyVal)
    (dumps dumpsSorted : PyVal → String) (execF : String → PyVal → ToolResult)
    (P : String → Prop) (s out : StepState) (c : PendingCall)
    (h : processOneCall dec dumps dumpsSorted execF s c = .ok out)
    (hP : ∀ m ∈ s.state.messages, P m.role) : ∀ m ∈ out.state.messages, P m.role := by
  by_cases hc : pyTruthy c.args
  · obtain ⟨toolMsg, msgs, hmk, hw, hre⟩ :=
      processOneCall_executed dec dumps dumpsSorted execF s c hc out h
    subst hre
    exact slidingWindowCompact_roles dec dumps P s.state.messages msgs hw hP
  · rw [processOneCall_skipped dec dumps dumpsSorted execF s c hc] at h
    injection h with h
    subst h
    exact hP

theorem execCalls_roles (dec : String → Option PyVal) (dumps dumpsSorted : PyVal → String)
    (execF : String → PyVal → ToolResult) (P : String → Prop) :
    ∀ (calls : List PendingCall) (s out : StepState),
      execCalls dec dumps dumpsSorted execF s calls = .ok out →
      (∀ m ∈ s.state.messages, P m.role) → ∀ m ∈ out.state.messages, P m.role := by
  intro calls
  induction calls with
  | nil =>
    intro s out h hP
    injection h with h
    subst h
    exact hP
  | cons c rest ih =>
    intro s out h hP
    simp only [execCalls] at h
    rcases h1 : processOneCall dec dumps dumpsSorted execF s c with e | s1 <;> rw [h1] at h
    · exact absurd h (by simp)
    exact ih s1 out h
      (processOneCall_roles dec dumps dumpsSorted execF P s s1 c h1 hP)

theorem runLoop_api (dec : String → Option PyVal) (dumps dumpsSorted : PyVal → String)
    (execF : String → PyVal → ToolResult) :
    ∀ (fuel : Nat) (turns : List (List Chunk)) (s out : StepState),
      runLoop dec dumps dumpsSorted execF fuel turns s = .ok out →
      ∃ blocks : List (List Msg),
        out.api = s.api ++ blocks.flatten ∧
        ∀ b ∈ blocks, ∃ content calls msgsAdded,
          executedToolMsgs dumps execF calls = .ok msgsAdded ∧
          b = mkAssistantMsg content calls :: msgsAdded := by
  intro fuel
  induction fuel with
  | zero =>
    intro turns s out h
    injection h with h
    subst h
    exact ⟨[], by simp, by simp⟩
  | succ fuel ih =>
    intro turns s out h
    have body : ∀ (t : List Chunk) (ts : List (List Chunk)),
        runLoop dec dumps dumpsSorted execF (fuel + 1) (t :: ts) s = .ok out →
        ∃ blocks : List (List Msg),
          out.api = s.api ++ blocks.flatten ∧
          ∀ b ∈ blocks, ∃ content calls msgsAdded,
            executedToolMsgs dumps execF calls = .ok msgsAdded ∧
            b = mkAssistantMsg content calls :: msgsAdded := by
      intro t ts h2
      simp only [runLoop] at h2
      split at h2
      · next iter heq =>
        injection h2 with h2
        subst h2
        exact ⟨[], by simp, by simp⟩
      · next iter heq =>
        split at h2
        · next hEmpty =>
          injection h2 with h2
          subst h2
          have hcalls : iter.calls = [] := List.isEmpty_iff.mp hEmpty
          refine ⟨[[mkAssistantMsg iter.content iter.calls]], by simp, ?_⟩
          intro b hb
          simp only [List.mem_singleton] at hb
          subst hb
          exact ⟨iter.content, iter.calls, [], by rw [hcalls]; rfl, rfl⟩
        · next hEmpty =>
          rcases hev : execCalls dec dumps dumpsSorted execF
              ⟨⟨s.state.messages ++ [mkAssistantMsg iter.content iter.calls],
                s.state.recentActions, iter.counters⟩,
                s.api ++ [mkAssistantMsg iter.content iter.calls], s.events⟩ iter.calls
              with e | s2
          · rw [hev] at h2
            exact absurd h2 (by simp)
          rw [hev] at h2
          obtain ⟨blocks2, hapi2, hblocks2⟩ := ih ts s2 out h2
          obtain ⟨msgsAdded, hms, hapi1⟩ := execCalls_api dec dumps dumpsSorted execF
            iter.calls _ s2 hev
          refine ⟨(mkAssistantMsg iter.content iter.calls :: msgsAdded) :: blocks2, ?_, ?_⟩
          · rw [hapi2, hapi1]
            simp
          · intro b hb
            rcases List.mem_cons.mp hb with hb | hb
            · subst hb
              exact ⟨iter.content, iter.calls, msgsAdded, hms, rfl⟩
            · exact hblocks2 b hb
    rcases turns with _ | ⟨t, ts⟩
    · exact body [] [] h
    · exact body t ts h

theorem runLoop_roles (dec : String → Option PyVal) (dumps dumpsSorted : PyVal → String)
    (execF : String → PyVal → ToolResult) (P : String → Prop) (hPa : P "assistant") :
    ∀ (fuel : Nat) (turns : List (List Chunk)) (s out : StepState),
      runLoop dec dumps dumpsSorted execF fuel turns s = .ok out →
      (∀ m ∈ s.state.messages, P m.role) → ∀ m ∈ out.state.messages, P m.role := by
  intro fuel
  induction fuel with
  | zero =>
    intro turns s out h hP
    injection h with h
    subst h
    exact hP
  | succ fuel ih =>
    intro turns s out h hP
    have body : ∀ (t : List Chunk) (ts : List (List Chunk)),
        runLoop dec dumps dumpsSorted execF (fuel + 1) (t :: ts) s = .ok out →
        ∀ m ∈ out.state.messages, P m.role := by
      intro t ts h2
      simp only [runLoop] at h2
      have hP1 : ∀ (iter : IterState),
          ∀ m ∈ s.state.messages ++ [mkAssistantMsg iter.content iter.calls], P m.role := by
        intro iter m hm
        rcases List.mem_append.mp hm with hm | hm
        · exact hP m hm
        · simp only [List.mem_singleton] at hm
          subst hm
          exact hPa
      split at h2
      · next iter heq =>
        injection h2 with h2
        subst h2
        exact hP
      · next iter heq =>
        split at h2
        · next hEmpty =>
          injection h2 with h2
          subst h2
          exact hP1 iter
        · next hEmpty =>
          rcases hev : execCalls dec dumps dumpsSorted execF
              ⟨⟨s.state.messages ++ [mkAssistantMsg iter.content iter.calls],
                s.state.recentActions, iter.counters⟩,
                s.api ++ [mkAssistantMsg iter.content iter.calls], s.events⟩ iter.calls
              with e | s2
          · rw [hev] at h2
            exact absurd h2 (by simp)
          rw [hev] at h2
          exact ih ts s2 out h2
            (execCalls_roles dec dumps dumpsSorted execF P iter.calls _ s2 hev (hP1 iter))
    rcases turns with _ | ⟨t, ts⟩
    · exact body [] [] h
    · exact body t ts h

/-! ## Claim theorems -/

/-- C9: truncate_output returns a string at or below the limit unchanged (so
re-truncating an under-limit output is a no-op), and cuts a longer string of
length L to its first maxSize characters followed by the fixed-format marker
naming L; the kept prefix has exactly maxSize characters. -/
theorem c9_truncate_output (s : String) (M : Nat) :
    (s.length ≤ M →
      truncateOutput s M = s ∧
      truncateOutput (truncateOutput s M) M = truncateOutput s M) ∧
    (M < s.length →
      truncateOutput s M =
        s.take M ++ "\n\n[Output truncated: " ++ toString s.length ++ " total characters]" ∧
      (s.take M).length = M) := by
  constructor
  · intro h
    have h1 : truncateOutput s M = s := by simp [truncateOutput, h]
    exact ⟨h1, by rw [h1, h1]⟩
  · intro h
    refine ⟨by simp [truncateOutput, Nat.not_le.mpr h], ?_⟩
    rw [string_length_take]
    exact Nat.min_eq_left (Nat.le_of_lt h)

/-- Closed witness for C9 at concrete inputs, exercising both branches. -/
theorem c9_truncate_output_witness :
    ("hi".length ≤ 5 ∧ truncateOutput "hi" 5 = "hi") ∧
    (3 < "hello".length ∧
      truncateOutput "hello" 3 =
        "hello".take 3 ++ "\n\n[Output truncated: " ++ toString "hello".length ++
          " total characters]") :=
  ⟨⟨by decide, ((c9_truncate_output "hi" 5).1 (by decide)).1⟩,
   ⟨by decide, ((c9_truncate_output "hello" 3).2 (by decide)).1⟩⟩

/-- C8: the cost in the usage summary is tokens times per-million price divided by
1,000,000; the static table prices claude-sonnet-4 at 15 in / 75 out per
million, and one million prompt plus one million completion tokens at that
price cost exactly 90. -/
theorem c8_cost_formula :
    (∀ cnt pr, (mkUsageSummary cnt pr).costUsd
        = ((cnt.totalPrompt : ℚ) * pr.input + (cnt.totalCompletion : ℚ) * pr.output) / 1000000) ∧
    STATIC_PRICING.lookup "anthropic/claude-sonnet-4" = some ⟨15, 75⟩ ∧
    computeCost 1000000 1000000 ⟨15, 75⟩ = 90 := by
  refine ⟨fun cnt pr => rfl, by decide, ?_⟩
  norm_num [computeCost]

/-- C3 is a code bug: streamed usage counters are added only to the
process-lifetime totals (controller.py lines 333-334); the per-task
query counters are reset at task start but never incremented, so after a
task consuming 10 prompt and 5 completion tokens the usage summary reports
query_prompt_tokens = 0 and query_completion_tokens = 0 instead of 10 and 5,
while the lifetime totals correctly reach 10 and 5. -/
theorem c3_query_counters_never_accumulate :
    (processTask (fun _ => none) (fun _ => "") (fun _ => "") (fun _ _ => ⟨false, .vnone⟩)
        ⟨0, 0⟩ {} "task"
        [[{ content := "done",
            usage := some { promptTokens := 10, completionTokens := 5 } }]]).map
      (fun res => (res.usage.promptTokens, res.usage.completionTokens,
        res.usage.queryPromptTokens, res.usage.queryCompletionTokens))
    = .ok (10, 5, 0, 0) := by
  rfl

/-- C2: for every fragment sequence whose argument texts, concatenated in
index order, decode as valid JSON, the parsed
arguments equal the decode of the full concatenation, and its buffer and
recorded argument text equal that concatenation - independently of how the
text was split: any two fragmentations with the same concatenation yield
identical stream results.  Intermediate decode failures on the growing
buffer are silently deferred: the stream completes without error. -/
theorem c2_argument_assembly (dec : String → Option PyVal) (nm : String)
    (callId : Option String) (frags : List String) (v : PyVal)
    (content : String) (cnt : Counters)
    (hnm : nm ≠ "") (hnil : dec "" = none)
    (hdec : dec (sconcat frags) = some v) :
    consumeStream dec ⟨content, [], cnt⟩ (openChunk nm callId :: frags.map argChunk)
      = (⟨content, [⟨nm, callId, sconcat frags, v, sconcat frags⟩], cnt⟩, false) ∧
    ∀ frags₂, sconcat frags₂ = sconcat frags →
      consumeStream dec ⟨content, [], cnt⟩ (openChunk nm callId :: frags₂.map argChunk)
        = consumeStream dec ⟨content, [], cnt⟩ (openChunk nm callId :: frags.map argChunk) := by
  have main : ∀ fr : List String, dec (sconcat fr) = some v →
      consumeStream dec ⟨content, [], cnt⟩ (openChunk nm callId :: fr.map argChunk)
        = (⟨content, [⟨nm, callId, sconcat fr, v, sconcat fr⟩], cnt⟩, false) := by
    intro fr hfr
    have hstep : consumeStream dec ⟨content, [], cnt⟩ (openChunk nm callId :: fr.map argChunk)
        = consumeStream dec ⟨content, [newPendingCall nm callId], cnt⟩ (fr.map argChunk) := by
      simp [consumeStream, openChunk, processDeltas, processToolDelta, bumpCounters, hnm]
    rw [hstep, consumeStream_argChunks]
    have hne : ∃ f ∈ fr, f ≠ "" := by
      by_contra hno
      push_neg at hno
      rw [sconcat_all_empty hno, hnil] at hfr
      exact Option.noConfusion hfr
    have hbuf0 : (newPendingCall nm callId).buffer = "" := rfl
    have hb : (argFold dec (newPendingCall nm callId) fr).buffer = sconcat fr := by
      rw [argFold_buffer, hbuf0, String.empty_append]
    have ha : (argFold dec (newPendingCall nm callId) fr).args = v := by
      apply argFold_args dec fr v _ hne
      rw [hbuf0, String.empty_append]
      exact hfr
    have hn := argFold_name dec fr (newPendingCall nm callId)
    have ht := argFold_argText dec fr (newPendingCall nm callId) rfl
    have hX : argFold dec (newPendingCall nm callId) fr
        = ⟨nm, callId, sconcat fr, v, sconcat fr⟩ :=
      PendingCall.ext hn.1 hn.2 hb ha (ht.trans hb)
    rw [hX]
  refine ⟨main frags hdec, fun frags₂ h2 => ?_⟩
  rw [main frags hdec, main frags₂ (by rw [h2]; exact hdec), h2]

/-- Closed witness for C2: a two-fragment split of the argument text, with a
decoder accepting exactly the full concatenation. -/
theorem c2_argument_assembly_witness :
    ("t" : String) ≠ "" ∧
    (fun s => if s = "ab" then some (PyVal.vstr "ok") else none) "" = none ∧
    (fun s => if s = "ab" then some (PyVal.vstr "ok") else none) (sconcat ["a", "b"])
      = some (.vstr "ok") ∧
    consumeStream (fun s => if s = "ab" then some (PyVal.vstr "ok") else none)
        ⟨"", [], ⟨0, 0, 0, 0⟩⟩ (openChunk "t" (some "id") :: (["a", "b"].map argChunk))
      = (⟨"", [⟨"t", some "id", sconcat ["a", "b"], .vstr "ok", sconcat ["a", "b"]⟩],
          ⟨0, 0, 0, 0⟩⟩, false) := by
  refine ⟨by decide, rfl, rfl, ?_⟩
  exact (c2_argument_assembly (fun s => if s = "ab" then some (PyVal.vstr "ok") else none)
    "t" (some "id") ["a", "b"] (.vstr "ok") "" ⟨0, 0, 0, 0⟩
    (by decide) rfl rfl).1

/-- C1: the API message list of every completed run decomposes as the initial
prefix (system prompt, prior history, user message) followed by per-turn
blocks, each an assistant message immediately followed by exactly the
tool-result messages of its non-skipped calls - one per executed call, in
call order (executedToolMsgs); aborted turns and iteration-cap exit
contribute no block, and compaction touches only the persistent history,
which (started tool-free) never holds a tool-result that eviction could
orphan. -/
theorem c1_tool_result_pairing (dec : String → Option PyVal)
    (dumps dumpsSorted : PyVal → String) (execF : String → PyVal → ToolResult)
    (pricing : Pricing) (st0 : ControllerState) (userTask : String)
    (turns : List (List Chunk)) (res : RunResult)
    (h0 : ∀ m ∈ st0.messages, m.role ≠ "tool")
    (hrun : processTask dec dumps dumpsSorted execF pricing st0 userTask turns = .ok res) :
    (∃ blocks : List (List Msg),
      res.api = (formatMessage "system" systemPrompt ::
        (st0.messages ++ [formatMessage "user" userTask])) ++ blocks.flatten ∧
      ∀ b ∈ blocks, ∃ content calls msgsAdded,
        executedToolMsgs dumps execF calls = .ok msgsAdded ∧
        b = mkAssistantMsg content calls :: msgsAdded) ∧
    (∀ m ∈ res.state.messages, m.role ≠ "tool") := by
  simp only [processTask] at hrun
  split at hrun
  · exact absurd hrun (by simp)
  · next sOut heq =>
    injection hrun with hrun
    subst hrun
    constructor
    · obtain ⟨blocks, hapi, hblocks⟩ := runLoop_api dec dumps dumpsSorted execF
        maxIterations turns _ sOut heq
      exact ⟨blocks, hapi, hblocks⟩
    · intro m hm
      refine runLoop_roles dec dumps dumpsSorted execF (fun r => r ≠ "tool") (by decide)
        maxIterations turns _ sOut heq ?_ m hm
      intro x hx
      rcases List.mem_append.mp hx with hx | hx
      · exact h0 x hx
      · simp only [List.mem_singleton] at hx
        subst hx
        show ("user" : String) ≠ "tool"
        decide

/-- Closed witness for C1: a two-turn run (one executed browser_open call,
then a final text-only turn) whose API list splits into the stated blocks. -/
theorem c1_tool_result_pairing_witness :
    ∃ (res : RunResult) (blocks : List (List Msg)),
      processTask (fun s => if s = "J" then some (.vdict [("url", .vstr "x")]) else none)
          (fun _ => "D") (fun _ => "A") (fun _ _ => ⟨true, .vstr "done"⟩) ⟨0, 0⟩
          ⟨[], [], ⟨0, 0, 0, 0⟩⟩ "go"
          [[openChunk "browser_open" (some "c1"), argChunk "J"], [⟨"answer", [], none⟩]]
        = .ok res ∧
      res.api = (formatMessage "system" systemPrompt ::
        (([] : List Msg) ++ [formatMessage "user" "go"])) ++ blocks.flatten ∧
      (∀ b ∈ blocks, ∃ content calls msgsAdded,
        executedToolMsgs (fun _ => "D") (fun _ _ => (⟨true, .vstr "done"⟩ : ToolResult))
          calls = .ok msgsAdded ∧
        b = mkAssistantMsg content calls :: msgsAdded) ∧
      (∀ m ∈ res.state.messages, m.role ≠ "tool") := by
  cases hres : processTask
      (fun s => if s = "J" then some (.vdict [("url", .vstr "x")]) else none)
      (fun _ => "D") (fun _ => "A") (fun _ _ => ⟨true, .vstr "done"⟩) ⟨0, 0⟩
      ⟨[], [], ⟨0, 0, 0, 0⟩⟩ "go"
      [[openChunk "browser_open" (some "c1"), argChunk "J"], [⟨"answer", [], none⟩]] with
  | error e => exact Except.noConfusion hres
  | ok res =>
    obtain ⟨⟨blocks, hapi, hblocks⟩, hroles⟩ := c1_tool_result_pairing
      (fun s => if s = "J" then some (.vdict [("url", .vstr "x")]) else none)
      (fun _ => "D") (fun _ => "A") (fun _ _ => ⟨true, .vstr "done"⟩) ⟨0, 0⟩
      ⟨[], [], ⟨0, 0, 0, 0⟩⟩ "go"
      [[openChunk "browser_open" (some "c1"), argChunk "J"], [⟨"answer", [], none⟩]]
      res (by simp) hres
    exact ⟨res, blocks, rfl, hapi, hblocks, hroles⟩

/-- C10: tool-result messages go only to the per-task API list, never to the
persistent history: a run started with a tool-free history ends with a
tool-free history, and one started with only user/assistant messages ends
with only user/assistant messages. -/
theorem c10_history_no_tool_role (dec : String → Option PyVal)
    (dumps dumpsSorted : PyVal → String) (execF : String → PyVal → ToolResult)
    (pricing : Pricing) (st0 : ControllerState) (userTask : String)
    (turns : List (List Chunk)) (res : RunResult)
    (hrun : processTask dec dumps dumpsSorted execF pricing st0 userTask turns = .ok res) :
    ((∀ m ∈ st0.messages, m.role ≠ "tool") →
      ∀ m ∈ res.state.messages, m.role ≠ "tool") ∧
    ((∀ m ∈ st0.messages, m.role = "user" ∨ m.role = "assistant") →
      ∀ m ∈ res.state.messages, m.role = "user" ∨ m.role = "assistant") := by
  simp only [processTask] at hrun
  split at hrun
  · exact absurd hrun (by simp)
  · next sOut heq =>
    injection hrun with hrun
    subst hrun
    constructor
    · intro h0 m hm
      refine runLoop_roles dec dumps dumpsSorted execF (fun r => r ≠ "tool") (by decide)
        maxIterations turns _ sOut heq ?_ m hm
      intro x hx
      rcases List.mem_append.mp hx with hx | hx
      · exact h0 x hx
      · simp only [List.mem_singleton] at hx
        subst hx
        show ("user" : String) ≠ "tool"
        decide
    · intro h0 m hm
      refine runLoop_roles dec dumps dumpsSorted execF
        (fun r => r = "user" ∨ r = "assistant") (by decide)
        maxIterations turns _ sOut heq ?_ m hm
      intro x hx
      rcases List.mem_append.mp hx with hx | hx
      · exact h0 x hx
      · simp only [List.mem_singleton] at hx
        subst hx
        exact Or.inl rfl

/-- Closed witness for C10: the same concrete two-turn run, started from an
empty history, ends with a history of only user and assistant messages. -/
theorem c10_history_no_tool_role_witness :
    ∃ res,
      processTask (fun s => if s = "J" then some (.vdict [("url", .vstr "x")]) else none)
          (fun _ => "E") (fun _ => "B") (fun _ _ => ⟨true, .vstr "done"⟩) ⟨0, 0⟩
          ⟨[], [], ⟨0, 0, 0, 0⟩⟩ "task2"
          [[openChunk "browser_open" (some "c2"), argChunk "J"], [⟨"fin", [], none⟩]]
        = .ok res ∧
      (∀ m ∈ res.state.messages, m.role ≠ "tool") ∧
      (∀ m ∈ res.state.messages, m.role = "user" ∨ m.role = "assistant") := by
  cases hres : processTask
      (fun s => if s = "J" then some (.vdict [("url", .vstr "x")]) else none)
      (fun _ => "E") (fun _ => "B") (fun _ _ => ⟨true, .vstr "done"⟩) ⟨0, 0⟩
      ⟨[], [], ⟨0, 0, 0, 0⟩⟩ "task2"
      [[openChunk "browser_open" (some "c2"), argChunk "J"], [⟨"fin", [], none⟩]] with
  | error e => exact Except.noConfusion hres
  | ok res =>
    obtain ⟨h1, h2⟩ := c10_history_no_tool_role
      (fun s => if s = "J" then some (.vdict [("url", .vstr "x")]) else none)
      (fun _ => "E") (fun _ => "B") (fun _ _ => ⟨true, .vstr "done"⟩) ⟨0, 0⟩
      ⟨[], [], ⟨0, 0, 0, 0⟩⟩ "task2"
      [[openChunk "browser_open" (some "c2"), argChunk "J"], [⟨"fin", [], none⟩]]
      res hres
    exact ⟨res, rfl, h1 (by simp), h2 (by simp)⟩

/-- C4: when the history exceeds the high-water mark of 12 after a
tool-result append, compaction first rewrites in place the tool-result
messages among the oldest (H - 6) messages, replacing the stored
content by the action-type-specific one-line summary (rewriteToolMsg, built
on _summarize_tool_result) and leaving every other message untouched, and
then - the count being still above the low-water mark of 6, since
summarization preserves it - evicts from the front, oldest first, down to
exactly 6 messages; eviction never happens to a list already at or below
the low-water mark. -/
theorem c4_compaction_summarize_then_evict (dec : String → Option PyVal)
    (dumps : PyVal → String) (msgs out : List Msg)
    (hlen : msgs.length > MAX_HISTORY_MESSAGES)
    (hrun : slidingWindowCompact dec dumps msgs = .ok out) :
    ∃ mid,
      summarizeOld dec dumps (msgs.length - MAX_SUMMARIZED_HISTORY) 0 msgs = .ok mid ∧
      mid.length = msgs.length ∧
      (∀ j, j < msgs.length - MAX_SUMMARIZED_HISTORY →
        (msgs.getD j default).role = "tool" →
        rewriteToolMsg dec dumps (msgs.getD j default) = .ok (mid.getD j default)) ∧
      (∀ j, ¬ (j < msgs.length - MAX_SUMMARIZED_HISTORY ∧
          (msgs.getD j default).role = "tool") →
        mid.getD j default = msgs.getD j default) ∧
      out = evictToLimit mid ∧
      out = mid.drop (mid.length - MAX_SUMMARIZED_HISTORY) ∧
      out.length = MAX_SUMMARIZED_HISTORY ∧
      (∀ l : List Msg, l.length ≤ MAX_SUMMARIZED_HISTORY → evictToLimit l = l) := by
  simp only [slidingWindowCompact, if_pos hlen] at hrun
  rcases hs : summarizeOld dec dumps (msgs.length - MAX_SUMMARIZED_HISTORY) 0 msgs
      with e | mid <;> rw [hs] at hrun
  · exact absurd hrun (by simp)
  injection hrun with hrun
  have hl := summarizeOld_length dec dumps (msgs.length - MAX_SUMMARIZED_HISTORY)
    msgs 0 mid hs
  have hpt := summarizeOld_getD dec dumps (msgs.length - MAX_SUMMARIZED_HISTORY)
    msgs 0 mid hs
  refine ⟨mid, rfl, hl, ?_, ?_, hrun.symm, ?_, ?_, ?_⟩
  · intro j hj hrole
    exact (hpt j).1 ⟨by omega, hrole⟩
  · intro j hj
    exact (hpt j).2 fun hy => hj ⟨by omega, hy.2⟩
  · rw [← hrun, evictToLimit_eq_drop]
  · rw [← hrun, evictToLimit_eq_drop, List.length_drop]
    have h12 : MAX_HISTORY_MESSAGES = 12 := rfl
    have h6 : MAX_SUMMARIZED_HISTORY = 6 := rfl
    omega
  · intro l hle
    rw [evictToLimit_eq_drop]
    have : l.length - MAX_SUMMARIZED_HISTORY = 0 := by omega
    rw [this, List.drop_zero]

/-- Closed witness for C4: a 13-message history whose single tool message
sits among the oldest seven; compaction rewrites it and evicts down to the
newest 6 messages. -/
theorem c4_compaction_summarize_then_evict_witness :
    (formatToolMessage "x" "R" :: List.replicate 12 (formatMessage "user" "u")).length
      > MAX_HISTORY_MESSAGES ∧
    slidingWindowCompact
        (fun s => if s = "R"
          then some (.vdict [("tool", .vstr "browser_click"), ("ok", .vbool true)])
          else none)
        pyStr
        (formatToolMessage "x" "R" :: List.replicate 12 (formatMessage "user" "u"))
      = .ok (List.replicate 6 (formatMessage "user" "u")) ∧
    (List.replicate 6 (formatMessage "user" "u")).length = MAX_SUMMARIZED_HISTORY := by
  refine ⟨by decide, rfl, ?_⟩
  obtain ⟨mid, hmid, hlen2, hrew, hkeep, hev, hdrop, hlen6, hid⟩ :=
    c4_compaction_summarize_then_evict
      (fun s => if s = "R"
        then some (.vdict [("tool", .vstr "browser_click"), ("ok", .vbool true)])
        else none)
      pyStr
      (formatToolMessage "x" "R" :: List.replicate 12 (formatMessage "user" "u"))
      (List.replicate 6 (formatMessage "user" "u"))
      (by decide) rfl
  exact hlen6

/-- Counterexample to C6 as stated: a call whose full argument text is the
valid JSON text of the empty object is nevertheless skipped.  The skip check
(controller.py line 427, if not tool_call.args) tests Python truthiness of
the parsed arguments, and the successfully decoded empty dict is falsy: the
stream assembles the call with parsed arguments, yet the execution phase
emits the per-call error event, never dispatches the executor, and appends
no tool-result message. -/
theorem c6_skip_counterexample :
    (fun s => if s = "\x7b\x7d" then some (PyVal.vdict []) else none) "\x7b\x7d"
      = some (.vdict []) ∧
    consumeStream (fun s => if s = "\x7b\x7d" then some (PyVal.vdict []) else none)
        ⟨"", [], ⟨0, 0, 0, 0⟩⟩
        (openChunk "browser_snapshot" (some "id1") :: [argChunk "\x7b\x7d"])
      = (⟨"", [⟨"browser_snapshot", some "id1", "\x7b\x7d", .vdict [], "\x7b\x7d"⟩],
          ⟨0, 0, 0, 0⟩⟩, false) ∧
    processOneCall (fun s => if s = "\x7b\x7d" then some (PyVal.vdict []) else none)
        (fun _ => "") (fun _ => "") (fun _ _ => ⟨true, .vnone⟩)
        ⟨⟨[], [], ⟨0, 0, 0, 0⟩⟩, [], []⟩
        ⟨"browser_snapshot", some "id1", "\x7b\x7d", .vdict [], "\x7b\x7d"⟩
      = .ok ⟨⟨[], [], ⟨0, 0, 0, 0⟩⟩, [], [.incompleteArgsError "browser_snapshot"]⟩ :=
  ⟨rfl, rfl, rfl⟩

/-- C6 as amended: a tool call is skipped - per-call error event, not
dispatched, no tool-result message - if and only if its parsed arguments
are falsy (in particular empty) at stream end; a call with truthy parsed
arguments is dispatched and gets exactly one tool-result message appended,
with no per-call error event. -/
theorem c6_skip_iff_falsy_args (dec : String → Option PyVal)
    (dumps dumpsSorted : PyVal → String) (execF : String → PyVal → ToolResult)
    (s : StepState) (c : PendingCall) :
    (¬ pyTruthy c.args →
      processOneCall dec dumps dumpsSorted execF s c
        = .ok { s with events := s.events ++ [.incompleteArgsError c.name] }) ∧
    (pyTruthy c.args →
      ∀ res, processOneCall dec dumps dumpsSorted execF s c = .ok res →
        (∃ toolMsg, mkToolMessage dumps c (execF c.name c.args) = .ok toolMsg ∧
          res.api = s.api ++ [toolMsg]) ∧
        (∃ newEvs, res.events = s.events ++ newEvs ∧
          newEvs.countP (fun e => e.isIncompleteArgsError) = 0)) := by
  constructor
  · intro hc
    have hc2 : pyTruthy c.args = false := by
      cases h : pyTruthy c.args
      · rfl
      · exact absurd h hc
    simp [processOneCall, hc2]
  · intro hc res hres
    simp only [processOneCall, hc, Bool.not_true, Bool.false_eq_true, if_false] at hres
    rcases hm : mkToolMessage dumps c (execF c.name c.args) with e | toolMsg <;>
      rw [hm] at hres
    · exact absurd hres (by simp)
    rcases hw : slidingWindowCompact dec dumps s.state.messages with e | msgs <;>
      rw [hw] at hres
    · exact absurd hres (by simp)
    injection hres with hres
    subst hres
    refine ⟨⟨toolMsg, rfl, rfl⟩, ?_⟩
    refine ⟨(if (ringPush s.state.recentActions (actionSig dumpsSorted c)).count
          (actionSig dumpsSorted c) ≥ 5
        then [Event.loopDetected c.name c.args] else []) ++
        [Event.toolCallEv c.name c.args, Event.logToolResult c.name (execF c.name c.args)],
      by simp, ?_⟩
    by_cases hq : (ringPush s.state.recentActions (actionSig dumpsSorted c)).count
        (actionSig dumpsSorted c) ≥ 5 <;>
      simp [hq, List.countP_append, List.countP_cons, Event.isIncompleteArgsError]

/-- Closed witness for the amended C6: a falsy-args call is skipped with the
error event; a truthy-args call is executed with one tool-result and no
error event. -/
theorem c6_skip_iff_falsy_args_witness :
    (¬ pyTruthy (PyVal.vdict []) ∧
      processOneCall (fun _ => none) (fun _ => "D") (fun _ => "A")
          (fun _ _ => ⟨true, .vnone⟩) ⟨⟨[], [], ⟨0, 0, 0, 0⟩⟩, [], []⟩
          ⟨"browser_fill", some "id3", "", .vdict [], ""⟩
        = .ok ⟨⟨[], [], ⟨0, 0, 0, 0⟩⟩, [], [.incompleteArgsError "browser_fill"]⟩) ∧
    (∃ res,
      processOneCall (fun _ => none) (fun _ => "D") (fun _ => "A")
          (fun _ _ => ⟨true, .vnone⟩) ⟨⟨[], [], ⟨0, 0, 0, 0⟩⟩, [], []⟩
          ⟨"browser_click", some "id2", "X", .vdict [("ref", .vstr "e1")], "X"⟩
        = .ok res ∧
      (∃ toolMsg,
        mkToolMessage (fun _ => "D")
            ⟨"browser_click", some "id2", "X", .vdict [("ref", .vstr "e1")], "X"⟩
            ((fun _ _ => (⟨true, .vnone⟩ : ToolResult)) "browser_click"
              (PyVal.vdict [("ref", .vstr "e1")]))
          = .ok toolMsg ∧
        res.api = [] ++ [toolMsg]) ∧
      (∃ newEvs, res.events = [] ++ newEvs ∧
        newEvs.countP (fun e => e.isIncompleteArgsError) = 0)) := by
  constructor
  · refine ⟨by simp [pyTruthy], ?_⟩
    have h := (c6_skip_iff_falsy_args (fun _ => none) (fun _ => "D") (fun _ => "A")
      (fun _ _ => ⟨true, .vnone⟩) ⟨⟨[], [], ⟨0, 0, 0, 0⟩⟩, [], []⟩
      ⟨"browser_fill", some "id3", "", .vdict [], ""⟩).1 (by simp [pyTruthy])
    exact h
  · have h := (c6_skip_iff_falsy_args (fun _ => none) (fun _ => "D") (fun _ => "A")
      (fun _ _ => ⟨true, .vnone⟩) ⟨⟨[], [], ⟨0, 0, 0, 0⟩⟩, [], []⟩
      ⟨"browser_click", some "id2", "X", .vdict [("ref", .vstr "e1")], "X"⟩).2 rfl
    obtain ⟨h1, h2⟩ := h _ rfl
    exact ⟨_, rfl, h1, h2⟩

/-- C7: page-snapshot and screenshot tool-results are summarized
unconditionally at the moment they are produced, for any history size and
before the sliding-window compaction (which only touches the persistent
history, never the appended API tool message): the snapshot content fed back
to the model is reduced to its interactive-element count and page-content
length, the screenshot content is replaced by the fixed placeholder, and the
session recorder still receives the full unsummarized result. -/
theorem c7_unconditional_summarization (dec : String → Option PyVal)
    (dumps dumpsSorted : PyVal → String) (execF : String → PyVal → ToolResult)
    (s : StepState) (c : PendingCall) (hc : pyTruthy c.args) :
    (c.name = "browser_screenshot" → (execF c.name c.args).ok = true →
      ∀ res, processOneCall dec dumps dumpsSorted execF s c = .ok res →
        res.api = s.api ++ [formatToolMessage (c.callId.getD "unknown")
          (dumps (toolResultToVal ⟨true,
            .vstr "[Screenshot captured - image not included in conversation history]"⟩))] ∧
        Event.logToolResult c.name (execF c.name c.args) ∈ res.events) ∧
    (∀ es nrefs nsnap, c.name = "browser_snapshot" →
      execF c.name c.args = ⟨true, .vdict es⟩ →
      pyLen (pyGet es "refs" (.vdict [])) = .ok nrefs →
      pyLen (pyGet es "snapshot" (.vstr "")) = .ok nsnap →
      ∀ res, processOneCall dec dumps dumpsSorted execF s c = .ok res →
        res.api = s.api ++ [formatToolMessage (c.callId.getD "unknown")
          (dumps (toolResultToVal ⟨true,
            .vstr ("[Snapshot summarized: " ++ toString nrefs ++
              " interactive elements, " ++ toString nsnap ++ " chars of page content]")⟩))] ∧
        Event.logToolResult c.name (execF c.name c.args) ∈ res.events) := by
  constructor
  · intro hn hok res hres
    obtain ⟨toolMsg, msgs, hmk, hw, hre⟩ :=
      processOneCall_executed dec dumps dumpsSorted execF s c hc res hres
    subst hre
    rw [mkToolMessage_screenshot dumps c _ hn hok] at hmk
    injection hmk with hmk
    subst hmk
    exact ⟨rfl, by simp⟩
  · intro es nrefs nsnap hn hexec hrefs hsnap res hres
    obtain ⟨toolMsg, msgs, hmk, hw, hre⟩ :=
      processOneCall_executed dec dumps dumpsSorted execF s c hc res hres
    subst hre
    rw [hexec, mkToolMessage_snapshot dumps c es nrefs nsnap hn hrefs hsnap] at hmk
    injection hmk with hmk
    subst hmk
    exact ⟨rfl, by simp⟩

/-- Closed witness for C7: a concrete successful screenshot call whose fed-back
content is the placeholder, and a concrete successful snapshot call whose
fed-back content is the element-count and content-length summary, with the
full results logged. -/
theorem c7_unconditional_summarization_witness :
    (∃ res,
      processOneCall (fun _ => none) (fun v => pyStr v) (fun _ => "A")
          (fun _ _ => ⟨true, .vstr "base64img"⟩) ⟨⟨[], [], ⟨0, 0, 0, 0⟩⟩, [], []⟩
          ⟨"browser_screenshot", some "s1", "x", .vdict [("full_page", .vbool true)], "x"⟩
        = .ok res ∧
      res.api = [] ++ [formatToolMessage "s1"
        (pyStr (toolResultToVal ⟨true,
          .vstr "[Screenshot captured - image not included in conversation history]"⟩))] ∧
      Event.logToolResult "browser_screenshot" ⟨true, .vstr "base64img"⟩ ∈ res.events) ∧
    (∃ res,
      processOneCall (fun _ => none) (fun v => pyStr v) (fun _ => "A")
          (fun _ _ => ⟨true, .vdict [("refs", .vdict [("e1", .vstr "button")]),
            ("snapshot", .vstr "page text")]⟩) ⟨⟨[], [], ⟨0, 0, 0, 0⟩⟩, [], []⟩
          ⟨"browser_snapshot", some "s2", "x", .vdict [("interactive", .vbool true)], "x"⟩
        = .ok res ∧
      res.api = [] ++ [formatToolMessage "s2"
        (pyStr (toolResultToVal ⟨true,
          .vstr ("[Snapshot summarized: " ++ toString 1 ++
            " interactive elements, " ++ toString 9 ++ " chars of page content]")⟩))] ∧
      Event.logToolResult "browser_snapshot"
          ⟨true, .vdict [("refs", .vdict [("e1", .vstr "button")]),
            ("snapshot", .vstr "page text")]⟩ ∈ res.events) := by
  constructor
  · have h := (c7_unconditional_summarization (fun _ => none) (fun v => pyStr v)
      (fun _ => "A") (fun _ _ => ⟨true, .vstr "base64img"⟩)
      ⟨⟨[], [], ⟨0, 0, 0, 0⟩⟩, [], []⟩
      ⟨"browser_screenshot", some "s1", "x", .vdict [("full_page", .vbool true)], "x"⟩
      rfl).1 rfl rfl
    obtain ⟨h1, h2⟩ := h _ rfl
    exact ⟨_, rfl, h1, h2⟩
  · have h := (c7_unconditional_summarization (fun _ => none) (fun v => pyStr v)
      (fun _ => "A")
      (fun _ _ => ⟨true, .vdict [("refs", .vdict [("e1", .vstr "button")]),
        ("snapshot", .vstr "page text")]⟩)
      ⟨⟨[], [], ⟨0, 0, 0, 0⟩⟩, [], []⟩
      ⟨"browser_snapshot", some "s2", "x", .vdict [("interactive", .vbool true)], "x"⟩
      rfl).2 [("refs", .vdict [("e1", .vstr "button")]), ("snapshot", .vstr "page text")]
      1 9 rfl rfl (by rfl) (by rfl)
    obtain ⟨h1, h2⟩ := h _ rfl
    exact ⟨_, rfl, h1, h2⟩

/-- C5: the recent-action ring holds at most 10 signatures with the oldest
evicted on overflow; processing an executed call emits exactly one
loop-detected event when its signature then occurs at least 5 times in the
ring and none otherwise (a skipped call emits none); and the advisory never
halts or alters tool execution - history, counters, API messages and
non-advisory events are identical for any ring contents. -/
theorem c5_loop_detection
    (dec : String → Option PyVal) (dumps dumpsSorted : PyVal → String)
    (execF : String → PyVal → ToolResult) (s : StepState) (c : PendingCall)
    (ring : List String) (sig : String) :
    (ring.length ≤ 10 → (ringPush ring sig).length ≤ 10) ∧
    (ring.length = 10 → ringPush ring sig = ring.tail ++ [sig]) ∧
    (∀ res, processOneCall dec dumps dumpsSorted execF s c = .ok res →
      ∃ newEvs, res.events = s.events ++ newEvs ∧
        newEvs.countP (fun e => e.isLoopDetected) =
          (if pyTruthy c.args ∧
              (ringPush s.state.recentActions (actionSig dumpsSorted c)).count
                (actionSig dumpsSorted c) ≥ 5
            then 1 else 0)) ∧
    (∀ ring₂,
      (processOneCall dec dumps dumpsSorted execF
          { s with state := { s.state with recentActions := ring₂ } } c).map
        (fun r => (r.state.messages, r.state.counters, r.api,
          r.events.filter (fun e => !e.isLoopDetected)))
      = (processOneCall dec dumps dumpsSorted execF s c).map
        (fun r => (r.state.messages, r.state.counters, r.api,
          r.events.filter (fun e => !e.isLoopDetected)))) := by
  refine ⟨?_, ?_, ?_, ?_⟩
  · intro h
    by_cases hgt : (ring ++ [sig]).length > 10
    · have he : ringPush ring sig = (ring ++ [sig]).tail := by
        simp only [ringPush, if_pos hgt]
      rw [he, List.length_tail]
      simp only [List.length_append, List.length_cons, List.length_nil] at hgt ⊢
      omega
    · have he : ringPush ring sig = ring ++ [sig] := by
        simp only [ringPush, if_neg hgt]
      rw [he]
      simp only [List.length_append, List.length_cons, List.length_nil] at hgt ⊢
      omega
  · intro h
    have hne : ring ≠ [] := by
      intro he
      rw [he] at h
      simp at h
    have hgt : (ring ++ [sig]).length > 10 := by simp [h]
    have he : ringPush ring sig = (ring ++ [sig]).tail := by
      simp only [ringPush, if_pos hgt]
    rw [he]
    exact List.tail_append_of_ne_nil hne
  · intro res hres
    by_cases hc : pyTruthy c.args
    · simp only [processOneCall, hc, Bool.not_true, Bool.false_eq_true, if_false] at hres
      rcases hm : mkToolMessage dumps c (execF c.name c.args) with e | toolMsg <;>
        rw [hm] at hres
      · exact absurd hres (by simp)
      rcases hw : slidingWindowCompact dec dumps s.state.messages with e | msgs <;>
        rw [hw] at hres
      · exact absurd hres (by simp)
      injection hres with hres
      subst hres
      refine ⟨(if (ringPush s.state.recentActions (actionSig dumpsSorted c)).count
            (actionSig dumpsSorted c) ≥ 5
          then [Event.loopDetected c.name c.args] else []) ++
          [Event.toolCallEv c.name c.args, Event.logToolResult c.name (execF c.name c.args)],
        by simp, ?_⟩
      simp only [hc, true_and]
      by_cases hq : (ringPush s.state.recentActions (actionSig dumpsSorted c)).count
          (actionSig dumpsSorted c) ≥ 5 <;>
        simp [hq, List.countP_append, List.countP_cons, Event.isLoopDetected]
    · simp only [processOneCall, hc] at hres
      simp only [Bool.not_false, if_true] at hres
      injection hres with hres
      subst hres
      exact ⟨[.incompleteArgsError c.name], by simp, by simp [hc, Event.isLoopDetected]⟩
  · intro ring₂
    by_cases hc : pyTruthy c.args
    · simp only [processOneCall, hc, Bool.not_true, Bool.false_eq_true, if_false]
      rcases hm : mkToolMessage dumps c (execF c.name c.args) with e | toolMsg
      · rfl
      rcases hw : slidingWindowCompact dec dumps s.state.messages with e | msgs
      · rfl
      by_cases h1 : (ringPush ring₂ (actionSig dumpsSorted c)).count
          (actionSig dumpsSorted c) ≥ 5 <;>
      by_cases h2 : (ringPush s.state.recentActions (actionSig dumpsSorted c)).count
          (actionSig dumpsSorted c) ≥ 5 <;>
        simp [h1, h2, Event.isLoopDetected, List.filter_append, Except.map]
    · simp only [processOneCall, hc]
      rfl

/-- Closed witness for C5: capacity and eviction at concrete rings, and a
concrete executed call whose fifth identical signature in the ring produces
exactly one advisory. -/
theorem c5_loop_detection_witness :
    ((ringPush ["s"] "s").length ≤ 10) ∧
    (ringPush ["a", "b", "c", "d", "e", "f", "g", "h", "i", "j"] "s"
      = ["a", "b", "c", "d", "e", "f", "g", "h", "i", "j"].tail ++ ["s"]) ∧
    (∃ newEvs res,
      processOneCall (fun _ => none) (fun _ => "D") (fun _ => "A")
          (fun _ _ => ⟨true, .vnone⟩)
          ⟨⟨[], ["browser_click:A", "browser_click:A", "browser_click:A", "browser_click:A"],
            ⟨0, 0, 0, 0⟩⟩, [], []⟩
          ⟨"browser_click", some "id1", "", .vdict [("ref", .vstr "e1")], ""⟩
        = .ok res ∧
      res.events = [] ++ newEvs ∧
      newEvs.countP (fun e => e.isLoopDetected) = 1) := by
  refine ⟨?_, ?_, ?_⟩
  · exact (c5_loop_detection (fun _ => none) (fun _ => "") (fun _ => "")
      (fun _ _ => ⟨true, .vnone⟩) ⟨⟨[], [], ⟨0, 0, 0, 0⟩⟩, [], []⟩
      ⟨"t", none, "", .vdict [], ""⟩ ["s"] "s").1 (by decide)
  · exact (c5_loop_detection (fun _ => none) (fun _ => "") (fun _ => "")
      (fun _ _ => ⟨true, .vnone⟩) ⟨⟨[], [], ⟨0, 0, 0, 0⟩⟩, [], []⟩
      ⟨"t", none, "", .vdict [], ""⟩
      ["a", "b", "c", "d", "e", "f", "g", "h", "i", "j"] "s").2.1 (by decide)
  · have h := (c5_loop_detection (fun _ => none) (fun _ => "D") (fun _ => "A")
      (fun _ _ => ⟨true, .vnone⟩)
      ⟨⟨[], ["browser_click:A", "browser_click:A", "browser_click:A", "browser_click:A"],
        ⟨0, 0, 0, 0⟩⟩, [], []⟩
      ⟨"browser_click", some "id1", "", .vdict [("ref", .vstr "e1")], ""⟩ [] "").2.2.1
    obtain ⟨newEvs, h1, h2⟩ := h _ rfl
    refine ⟨newEvs, _, rfl, h1, ?_⟩
    rw [h2]
    rfl

end BrowserAgent
